import Mathlib

/-!
Verification of the sales-analytics pipeline (src/main.py, src/utils/file_handler.py,
src/utils/data_processor.py) against its natural-language specification.

Python floating-point values are embedded as exact rationals, Python ints as `Int`,
Python strings as `String` with the string operations the code uses re-implemented
structurally over `String.data`, and insertion-ordered Python dicts as association
lists updated in place.  Python's `sorted` is a stable sort, and stable sorts by a
key are extensionally unique, so it is embedded as a stable insertion sort.
-/

set_option allowUnsafeReducibility true

attribute [semireducible] Rat.mul Rat.inv Rat.add Rat.sub Rat.ofScientific

namespace Sales

/-- Whitespace test modelling the character class stripped by Python str.strip(). -/
def pyIsSpace (c : Char) : Bool :=
  c = ' ' || c = '\t' || c = '\n' || c = '\r' || c = '\x0b' || c = '\x0c'

/-- Core of str.strip(): drop whitespace from both ends of a character list. -/
def stripWS (cs : List Char) : List Char :=
  ((cs.dropWhile pyIsSpace).reverse.dropWhile pyIsSpace).reverse

/-- Model of str.strip() on strings. -/
def pyStrip (s : String) : String := ⟨stripWS s.data⟩

/-- Model of str.replace(old, new) for the single-character old and new used by the
code (replacing commas with spaces in product names). -/
def pyReplaceChar (a b : Char) (s : String) : String :=
  ⟨s.data.map (fun c => if c = a then b else c)⟩

/-- Model of str.replace(old, "") for a single-character old: drop all occurrences
(used to clean thousands separators and to strip P from product ids). -/
def pyRemoveChar (a : Char) (s : String) : String :=
  ⟨s.data.filter (fun c => !(c = a))⟩

/-- Model of str.startswith(p) for the one-character prefixes used by the validator. -/
def startsWithChar (s : String) (c : Char) : Bool :=
  match s.data with
  | [] => false
  | c0 :: _ => c0 = c

/-- Truthiness of a Python string: nonempty. -/
def strTruthy (s : String) : Bool := !s.data.isEmpty

/-- Model of str.split(sep) for a single-character separator, on character lists.
Like Python, it keeps empty pieces and returns one piece for the empty string. -/
def splitOnChar (sep : Char) : List Char → List (List Char)
  | [] => [[]]
  | c :: cs =>
    let r := splitOnChar sep cs
    if c = sep then [] :: r
    else
      match r with
      | [] => [[c]]
      | h :: t => (c :: h) :: t

/-- Numeric value of a decimal digit character. -/
def digitVal (c : Char) : Nat := c.toNat - 48

/-- Value of a list of decimal digit characters, most significant first. -/
def digitsVal (cs : List Char) : Nat := cs.foldl (fun a c => 10 * a + digitVal c) 0

/-- Leading-sign step shared by the int() and float() models: whether the rest is
negated, and the rest. -/
def pySign : List Char → Bool × List Char
  | '-' :: cs => (true, cs)
  | '+' :: cs => (false, cs)
  | cs => (false, cs)

/-- Split a character list at the first character satisfying p; the second
component is the remainder after that character, if any. -/
def breakAt (p : Char → Bool) : List Char → List Char × Option (List Char)
  | [] => ([], none)
  | c :: cs =>
    if p c then ([], some cs)
    else
      let r := breakAt p cs
      (c :: r.1, r.2)

/-- Model of Python int(str) on the plain decimal fragment the data uses: optional
surrounding whitespace, optional sign, then a nonempty run of decimal digits. -/
def pyInt? (s : String) : Option Int :=
  let sn := pySign (stripWS s.data)
  if !sn.2.isEmpty && sn.2.all Char.isDigit then
    some (if sn.1 then -(digitsVal sn.2 : Int) else (digitsVal sn.2 : Int))
  else none

/-- Mantissa of a float literal: digits, digits.digits, digits. or .digits. -/
def parseMantissa (cs : List Char) : Option ℚ :=
  match breakAt (fun c => c = '.') cs with
  | (ip, none) =>
    if !ip.isEmpty && ip.all Char.isDigit then some ((digitsVal ip : ℚ)) else none
  | (ip, some fp) =>
    if (!ip.isEmpty || !fp.isEmpty) && ip.all Char.isDigit && fp.all Char.isDigit then
      some ((digitsVal ip : ℚ) + (digitsVal fp : ℚ) / (10 : ℚ) ^ fp.length)
    else none

/-- Model of Python float(str) on the finite decimal-literal fragment (no inf, nan
or underscores): optional whitespace and sign, mantissa, optional decimal exponent. -/
def pyFloat? (s : String) : Option ℚ :=
  let sn := pySign (stripWS s.data)
  let me := breakAt (fun c => c = 'e' || c = 'E') sn.2
  match parseMantissa me.1 with
  | none => none
  | some m =>
    let sm := if sn.1 then -m else m
    match me.2 with
    | none => some sm
    | some ecs =>
      let esn := pySign ecs
      if !esn.2.isEmpty && esn.2.all Char.isDigit then
        some (if esn.1 then sm / (10 : ℚ) ^ digitsVal esn.2
              else sm * (10 : ℚ) ^ digitsVal esn.2)
      else none

/-- Round a rational to the nearest integer, ties to even, as Python round() does. -/
def rhe (q : ℚ) : ℤ :=
  if q - ⌊q⌋ < 1 / 2 then ⌊q⌋
  else if 1 / 2 < q - ⌊q⌋ then ⌊q⌋ + 1
  else if ⌊q⌋ % 2 = 0 then ⌊q⌋ else ⌊q⌋ + 1

/-- Model of Python round(x, 2): round half to even at two decimal places (the
binary floating-point representation is abstracted by exact rationals). -/
def pyRound2 (q : ℚ) : ℚ := (rhe (q * 100) : ℚ) / 100

/-- Parsed sales record, as built by parse_transactions in src/utils/file_handler.py. -/
structure Transaction where
  transactionID : String
  date : String
  productID : String
  productName : String
  quantity : Int
  unitPrice : ℚ
  customerID : String
  region : String
deriving DecidableEq, Repr

/-- Derived transaction amount: Quantity * UnitPrice, recomputed wherever used. -/
def amountOf (t : Transaction) : ℚ := (t.quantity : ℚ) * t.unitPrice

/-- Cleaning and conversion step of the parsing loop of parse_transactions
(src/utils/file_handler.py), applied once a line has exactly 8 fields: convert
quantity and unit price after comma removal, failing the line if either
conversion fails, and build the cleaned record. -/
def mkParsed (tId date pId pName qtyS priceS cId region : List Char) :
    Option Transaction :=
  match pyInt? (pyRemoveChar ',' ⟨qtyS⟩), pyFloat? (pyRemoveChar ',' ⟨priceS⟩) with
  | some q, some p =>
    some { transactionID := ⟨stripWS tId⟩
           date := ⟨stripWS date⟩
           productID := ⟨stripWS pId⟩
           productName := pyStrip (pyReplaceChar ',' ' ' ⟨pName⟩)
           quantity := q
           unitPrice := p
           customerID := ⟨stripWS cId⟩
           region := ⟨stripWS region⟩ }
  | _, _ => none

/-- Model of the loop body of parse_transactions (src/utils/file_handler.py): split
on the pipe delimiter, require exactly 8 fields, then clean, convert and build. -/
def parseLine (line : String) : Option Transaction :=
  match splitOnChar '|' line.data with
  | [tId, date, pId, pName, qtyS, priceS, cId, region] =>
    mkParsed tId date pId pName qtyS priceS cId region
  | _ => none

/-- Model of parse_transactions (src/utils/file_handler.py): parse every raw line,
silently omitting the lines that fail. -/
def parse_transactions (rawLines : List String) : List Transaction :=
  rawLines.filterMap parseLine

/-- Characterization of the lines parse_transactions keeps: exactly 8 pipe-separated
fields, and quantity and unit price convert after comma removal. -/
def lineOK (line : String) : Bool :=
  match splitOnChar '|' line.data with
  | [_, _, _, _, qtyS, priceS, _, _] =>
    (pyInt? (pyRemoveChar ',' ⟨qtyS⟩)).isSome &&
    (pyFloat? (pyRemoveChar ',' ⟨priceS⟩)).isSome
  | _ => false

/-- Business-rule validation of one record, modelling the validation loop of
validate_and_filter (src/utils/file_handler.py). -/
def isValidT (t : Transaction) : Bool :=
  !decide (t.quantity ≤ 0) && !decide (t.unitPrice ≤ 0) &&
  strTruthy t.transactionID && strTruthy t.date && strTruthy t.productID &&
  strTruthy t.productName && strTruthy t.customerID && strTruthy t.region &&
  startsWithChar t.transactionID 'T' && startsWithChar t.productID 'P' &&
  startsWithChar t.customerID 'C'

/-- Truthiness of the optional region argument (Python: `if region:` is false for
None and for the empty string). -/
def optStrTruthy : Option String → Bool
  | none => false
  | some s => strTruthy s

/-- Region filter stage of validate_and_filter: applied only when the region
argument is truthy, keeping exact (case-sensitive) matches. -/
def regionStage : Option String → List Transaction → List Transaction
  | some r, ts => if strTruthy r then ts.filter (fun t => t.region == r) else ts
  | none, ts => ts

/-- Amount-range test of the amount filter: both bounds checked in one pass, a
record failing when its amount is below the given minimum or above the given
maximum. -/
def passesAmount (minA maxA : Option ℚ) (t : Transaction) : Bool :=
  (match minA with
   | some m => !decide (amountOf t < m)
   | none => true) &&
  (match maxA with
   | some m => !decide (m < amountOf t)
   | none => true)

/-- Amount filter stage of validate_and_filter: applied when either bound is given. -/
def amountStage (minA maxA : Option ℚ) (ts : List Transaction) : List Transaction :=
  if minA.isSome || maxA.isSome then ts.filter (passesAmount minA maxA) else ts

/-- Summary record returned by validate_and_filter. -/
structure FilterSummary where
  total_input : Nat
  invalid : Nat
  filtered_by_region : Nat
  filtered_by_amount : Nat
  final_count : Nat
deriving DecidableEq, Repr

/-- Model of validate_and_filter (src/utils/file_handler.py): validation pass, then
optional region filter, then optional amount filter, each removal count taken
against the set entering that stage. -/
def validate_and_filter (ts : List Transaction) (region : Option String)
    (minA maxA : Option ℚ) : List Transaction × Nat × FilterSummary :=
  (amountStage minA maxA (regionStage region (ts.filter isValidT)),
   (ts.filter (fun t => !isValidT t)).length,
   { total_input := ts.length
     invalid := (ts.filter (fun t => !isValidT t)).length
     filtered_by_region :=
       (ts.filter isValidT).length - (regionStage region (ts.filter isValidT)).length
     filtered_by_amount :=
       (regionStage region (ts.filter isValidT)).length
         - (amountStage minA maxA (regionStage region (ts.filter isValidT))).length
     final_count :=
       (amountStage minA maxA (regionStage region (ts.filter isValidT))).length })

/-- Stable insertion used to model Python sorted(): a is placed before the first
element it may precede. -/
def stableInsert {α : Type _} (le : α → α → Bool) (a : α) : List α → List α
  | [] => [a]
  | b :: l => if le a b then a :: b :: l else b :: stableInsert le a l

/-- Stable insertion sort, the embedding of Python sorted(): any two stable sorts
by the same key agree extensionally, and with le true on ties this one keeps
first-encountered order on ties exactly as Python does. -/
def stableSort {α : Type _} (le : α → α → Bool) : List α → List α
  | [] => []
  | a :: l => stableInsert le a (stableSort le l)

/-- Model of the Python dict-based grouping update: dicts preserve first-insertion
order, so a fresh key goes to the back and an existing key is updated in place. -/
def updAssoc {β : Type _} (k : String) (f : β → β) (d : β) :
    List (String × β) → List (String × β)
  | [] => [(k, f d)]
  | (k1, v) :: rest =>
    if k1 = k then (k1, f v) :: rest else (k1, v) :: updAssoc k f d rest

/-- Model of calculate_total_revenue (src/utils/data_processor.py). -/
def calculate_total_revenue (ts : List Transaction) : ℚ :=
  (ts.map amountOf).sum

/-- Accumulator of the region grouping pass of region_wise_sales. -/
structure RegionAcc where
  total_sales : ℚ
  transaction_count : Nat
deriving DecidableEq, Repr

/-- Per-transaction update of the region grouping pass of region_wise_sales:
region_stats keyed by region in first-encounter order. -/
def regionStep (acc : List (String × RegionAcc)) (t : Transaction) :
    List (String × RegionAcc) :=
  updAssoc t.region
    (fun s => { total_sales := s.total_sales + amountOf t
                transaction_count := s.transaction_count + 1 })
    { total_sales := 0, transaction_count := 0 } acc

/-- Region grouping as a fold of the per-transaction update. -/
def regionGroups (ts : List Transaction) : List (String × RegionAcc) :=
  ts.foldl regionStep []

/-- Final per-region statistics of region_wise_sales. -/
structure RegionStats where
  total_sales : ℚ
  transaction_count : Nat
  percentage : ℚ
deriving DecidableEq, Repr

/-- Per-region finalization of region_wise_sales: the percentage is computed from
the unrounded region total and the unrounded total revenue and rounded, then the
region total itself is rounded. -/
def finalizeRegion (totalRevenue : ℚ) (g : String × RegionAcc) : String × RegionStats :=
  (g.1,
   { total_sales := pyRound2 g.2.total_sales
     transaction_count := g.2.transaction_count
     percentage := pyRound2 (g.2.total_sales / totalRevenue * 100) })

/-- Model of region_wise_sales (src/utils/data_processor.py): empty on zero total
revenue, otherwise grouped, finalized and stably sorted descending by rounded
total sales. -/
def region_wise_sales (ts : List Transaction) : List (String × RegionStats) :=
  let totalRevenue := calculate_total_revenue ts
  if totalRevenue = 0 then []
  else
    stableSort (fun a b => decide (b.2.total_sales ≤ a.2.total_sales))
      ((regionGroups ts).map (finalizeRegion totalRevenue))

/-- Sum of the percentage fields of a region breakdown. -/
def sumPct (l : List (String × RegionStats)) : ℚ :=
  (l.map (fun p => p.2.percentage)).sum

/-- Accumulator of the customer grouping pass of customer_analysis. -/
structure CustomerAcc where
  total_spent : ℚ
  purchase_count : Nat
  products_set : List String
deriving DecidableEq, Repr

/-- Model of Python set.add: membership-tested insertion; iteration order of the
set is abstracted as insertion order of the distinct elements (the code treats
that order as insignificant). -/
def addUnique (x : String) (l : List String) : List String :=
  if x ∈ l then l else l ++ [x]

/-- Per-transaction update of the grouping pass of customer_analysis. -/
def customerStep (acc : List (String × CustomerAcc)) (t : Transaction) :
    List (String × CustomerAcc) :=
  updAssoc t.customerID
    (fun s => { total_spent := s.total_spent + amountOf t
                purchase_count := s.purchase_count + 1
                products_set := addUnique t.productName s.products_set })
    { total_spent := 0, purchase_count := 0, products_set := [] } acc

/-- Customer grouping as a fold of the per-transaction update. -/
def customerGroups (ts : List Transaction) : List (String × CustomerAcc) :=
  ts.foldl customerStep []

/-- Final per-customer statistics of customer_analysis. -/
structure CustomerStats where
  total_spent : ℚ
  purchase_count : Nat
  avg_order_value : ℚ
  products_bought : List String
deriving DecidableEq, Repr

/-- Per-customer finalization of customer_analysis, including its divide-by-zero
guard on the purchase count. -/
def finalizeCustomer (g : String × CustomerAcc) : String × CustomerStats :=
  (g.1,
   { total_spent := pyRound2 g.2.total_spent
     purchase_count := g.2.purchase_count
     avg_order_value :=
       pyRound2 (if 0 < g.2.purchase_count then
                   g.2.total_spent / (g.2.purchase_count : ℚ)
                 else 0)
     products_bought := g.2.products_set })

/-- Model of customer_analysis (src/utils/data_processor.py): grouped, finalized
and stably sorted descending by rounded total spend. -/
def customer_analysis (ts : List Transaction) : List (String × CustomerStats) :=
  stableSort (fun a b => decide (b.2.total_spent ≤ a.2.total_spent))
    ((customerGroups ts).map finalizeCustomer)

/-- Variant of the customer finalization with the divide-by-zero guard removed,
used to state that the guard branch is unreachable. -/
def finalizeCustomerNoGuard (g : String × CustomerAcc) : String × CustomerStats :=
  (g.1,
   { total_spent := pyRound2 g.2.total_spent
     purchase_count := g.2.purchase_count
     avg_order_value := pyRound2 (g.2.total_spent / (g.2.purchase_count : ℚ))
     products_bought := g.2.products_set })

/-- Customer analysis built with the guard-free finalization. -/
def customerAnalysisNoGuard (ts : List Transaction) : List (String × CustomerStats) :=
  stableSort (fun a b => decide (b.2.total_spent ≤ a.2.total_spent))
    ((customerGroups ts).map finalizeCustomerNoGuard)

/-- Accumulator of the date grouping pass of daily_sales_trend. -/
structure DayAcc where
  revenue : ℚ
  transaction_count : Nat
  customers_set : List String
deriving DecidableEq, Repr

/-- Per-transaction update of the grouping pass of daily_sales_trend. -/
def dayStep (acc : List (String × DayAcc)) (t : Transaction) :
    List (String × DayAcc) :=
  updAssoc t.date
    (fun s => { revenue := s.revenue + amountOf t
                transaction_count := s.transaction_count + 1
                customers_set := addUnique t.customerID s.customers_set })
    { revenue := 0, transaction_count := 0, customers_set := [] } acc

/-- Date grouping as a fold of the per-transaction update. -/
def dayGroups (ts : List Transaction) : List (String × DayAcc) :=
  ts.foldl dayStep []

/-- Final per-day statistics of daily_sales_trend. -/
structure DayStats where
  revenue : ℚ
  transaction_count : Nat
  unique_customers : Nat
deriving DecidableEq, Repr

/-- Per-day finalization of daily_sales_trend. -/
def finalizeDay (g : String × DayAcc) : String × DayStats :=
  (g.1,
   { revenue := pyRound2 g.2.revenue
     transaction_count := g.2.transaction_count
     unique_customers := g.2.customers_set.length })

/-- Lexicographic less-or-equal on character lists by code point, modelling Python
string comparison on the date strings. -/
def lexLeChars : List Char → List Char → Bool
  | [], _ => true
  | _ :: _, [] => false
  | a :: as, b :: bs => if a = b then lexLeChars as bs else decide (a < b)

/-- Model of Python string less-or-equal. -/
def strLe (a b : String) : Bool := lexLeChars a.data b.data

/-- Model of daily_sales_trend (src/utils/data_processor.py): grouped by date,
finalized, stably sorted ascending by date string. -/
def daily_sales_trend (ts : List Transaction) : List (String × DayStats) :=
  stableSort (fun a b => strLe a.1 b.1) ((dayGroups ts).map finalizeDay)

/-- Model of Python max(items, key=revenue) on the trend entries: none on an
empty list, else the fold that replaces the current best only on a strictly
larger key, so the first maximum encountered wins. -/
def pyMaxByRevenue (l : List (String × DayStats)) : Option (String × DayStats) :=
  match l with
  | [] => none
  | e :: rest =>
    some (rest.foldl (fun best x => if best.2.revenue < x.2.revenue then x else best) e)

/-- Model of find_peak_sales_day (src/utils/data_processor.py): None on an empty
trend, else the max-by-revenue entry projected to (date, revenue, count). -/
def find_peak_sales_day (ts : List Transaction) : Option (String × ℚ × Nat) :=
  (pyMaxByRevenue (daily_sales_trend ts)).map
    (fun p => (p.1, p.2.revenue, p.2.transaction_count))

/-- Key of the product mapping built from the API: the mapping has integer keys,
while the fallback lookup uses the product id string, so a key is one or the
other. -/
inductive PKey where
  | int (n : Int)
  | str (s : String)
deriving DecidableEq, Repr

/-- Product metadata supplied by the enrichment collaborator. -/
structure ProductInfo where
  title : String
  category : String
  brand : String
  rating : ℚ
deriving DecidableEq, Repr

/-- Transaction with the metadata and enriched flag attached by the loop in
src/main.py. -/
structure EnrichedTransaction where
  base : Transaction
  info : Option ProductInfo
  enriched : Bool
deriving DecidableEq, Repr

/-- Lookup of the enrichment loop in src/main.py: remove every P from the product
id, try an integer-keyed lookup, and only on conversion failure fall back to the
original product id string. -/
def enrichLookup (pmap : PKey → Option ProductInfo) (t : Transaction) :
    Option ProductInfo :=
  match pyInt? (pyRemoveChar 'P' t.productID) with
  | some n => pmap (PKey.int n)
  | none => pmap (PKey.str t.productID)

/-- One step of the enrichment loop in src/main.py: attach the metadata and set
the enriched flag, false when there is no match. -/
def enrichTransaction (pmap : PKey → Option ProductInfo) (t : Transaction) :
    EnrichedTransaction :=
  match enrichLookup pmap t with
  | some info => { base := t, info := some info, enriched := true }
  | none => { base := t, info := none, enriched := false }

/-- Model of the enrichment loop of src/main.py over the whole valid set. -/
def enrich_transactions (pmap : PKey → Option ProductInfo) (ts : List Transaction) :
    List EnrichedTransaction :=
  ts.map (enrichTransaction pmap)

/-- Spec-side key cleaning for claim C3, following the words of the spec: strip a
single leading P from the product id (the code instead removes every P). -/
def specStripLeadingP (s : String) : String :=
  match s.data with
  | 'P' :: rest => ⟨rest⟩
  | _ => s

/-- Spec-side enrichment lookup for claim C3: single leading P stripped before the
integer conversion, fallback to the original id string on conversion failure. -/
def specEnrichLookup (pmap : PKey → Option ProductInfo) (t : Transaction) :
    Option ProductInfo :=
  match pyInt? (specStripLeadingP t.productID) with
  | some n => pmap (PKey.int n)
  | none => pmap (PKey.str t.productID)

/-- Spec-side enrichment step for claim C3. -/
def specEnrichTransaction (pmap : PKey → Option ProductInfo) (t : Transaction) :
    EnrichedTransaction :=
  match specEnrichLookup pmap t with
  | some info => { base := t, info := some info, enriched := true }
  | none => { base := t, info := none, enriched := false }

/-- Concrete raw input used by witnesses, from the worked example of the spec
(with the second record moved to another region). -/
def exLines : List String :=
  ["T001|2024-12-01|P101|Mouse,Wireless|10|25.00|C001|North",
   "T002|2024-12-02|P102|Keyboard|5|50.00|C002|South"]

/-- Parsed form of the concrete witness input. -/
def exTs : List Transaction := parse_transactions exLines

/-- Product mapping used by the C3 comparison: it knows integer key 10 only. -/
def exPmap : PKey → Option ProductInfo := fun k =>
  if k = PKey.int 10 then
    some { title := "Gadget", category := "Tools", brand := "Acme", rating := 4 }
  else none

/-- Transaction whose product id contains a non-leading P, used by C3. -/
def exTP : Transaction :=
  { transactionID := "T001", date := "2024-12-01", productID := "P10P",
    productName := "Widget", quantity := 1, unitPrice := 2,
    customerID := "C001", region := "North" }

/-- Input with 25 regions used against the fixed percentage tolerance of C7:
24 regions of share 4.135 percent (each rounding up to 4.14) and one of share
0.76 percent, so the rounded percentages add to 100.12. -/
def exC7 : List Transaction :=
  (List.range 24).map (fun i =>
    { transactionID := "T001", date := "2024-12-01", productID := "P1",
      productName := "W", quantity := 1, unitPrice := 827 / 200,
      customerID := "C001", region := "R" ++ toString i }) ++
  [{ transactionID := "T001", date := "2024-12-01", productID := "P1",
     productName := "W", quantity := 1, unitPrice := 19 / 25,
     customerID := "C001", region := "Z" }]

/-! Generic lemmas about the stable sort, the dict-update, the rounding model and
the Python max fold. -/

theorem stableInsert_perm {α : Type _} (le : α → α → Bool) (a : α) (l : List α) :
    (stableInsert le a l).Perm (a :: l) := by
  induction l with
  | nil => exact List.Perm.refl _
  | cons b l ih =>
    simp only [stableInsert]
    split
    · exact List.Perm.refl _
    · exact (ih.cons b).trans (List.Perm.swap a b l)

theorem stableSort_perm {α : Type _} (le : α → α → Bool) (l : List α) :
    (stableSort le l).Perm l := by
  induction l with
  | nil => exact List.Perm.refl _
  | cons a l ih => exact (stableInsert_perm le a (stableSort le l)).trans (ih.cons a)

theorem mem_stableInsert {α : Type _} (le : α → α → Bool) (a x : α) (l : List α) :
    x ∈ stableInsert le a l ↔ x = a ∨ x ∈ l := by
  rw [(stableInsert_perm le a l).mem_iff, List.mem_cons]

theorem mem_stableSort {α : Type _} (le : α → α → Bool) (l : List α) (x : α) :
    x ∈ stableSort le l ↔ x ∈ l :=
  (stableSort_perm le l).mem_iff

theorem length_stableSort {α : Type _} (le : α → α → Bool) (l : List α) :
    (stableSort le l).length = l.length :=
  (stableSort_perm le l).length_eq

theorem pairwise_stableInsert {α : Type _} (le : α → α → Bool)
    (htot : ∀ a b, le a b = true ∨ le b a = true)
    (htrans : ∀ a b c, le a b = true → le b c = true → le a c = true)
    (a : α) (l : List α) (hl : l.Pairwise (fun x y => le x y = true)) :
    (stableInsert le a l).Pairwise (fun x y => le x y = true) := by
  induction l with
  | nil => simp [stableInsert]
  | cons b l ih =>
    rw [List.pairwise_cons] at hl
    obtain ⟨hb, hl2⟩ := hl
    simp only [stableInsert]
    split
    next h =>
      rw [List.pairwise_cons]
      refine ⟨?_, List.pairwise_cons.2 ⟨hb, hl2⟩⟩
      intro y hy
      rcases List.mem_cons.1 hy with rfl | hy2
      · exact h
      · exact htrans a b y h (hb y hy2)
    next h =>
      rw [List.pairwise_cons]
      have hba : le b a = true := by
        rcases htot a b with hab | hba
        · exact absurd hab h
        · exact hba
      refine ⟨?_, ih hl2⟩
      intro y hy
      rcases (mem_stableInsert le a y l).1 hy with rfl | hy2
      · exact hba
      · exact hb y hy2

theorem pairwise_stableSort {α : Type _} (le : α → α → Bool)
    (htot : ∀ a b, le a b = true ∨ le b a = true)
    (htrans : ∀ a b c, le a b = true → le b c = true → le a c = true)
    (l : List α) :
    (stableSort le l).Pairwise (fun x y => le x y = true) := by
  induction l with
  | nil => simp [stableSort]
  | cons a l ih => exact pairwise_stableInsert le htot htrans a _ ih

theorem filter_stableInsert {α : Type _} (le : α → α → Bool) (p : α → Bool)
    (hp : ∀ a b, p a = true → p b = true → le a b = true) (a : α) (l : List α) :
    (stableInsert le a l).filter p =
      if p a then a :: l.filter p else l.filter p := by
  induction l with
  | nil => simp [stableInsert, List.filter_cons]
  | cons b l ih =>
    simp only [stableInsert]
    split
    next h => simp [List.filter_cons]
    next h =>
      rw [List.filter_cons, ih, List.filter_cons]
      by_cases hpa : p a = true
      · by_cases hpb : p b = true
        · exact absurd (hp a b hpa hpb) h
        · simp [hpa, hpb]
      · simp [hpa]

theorem filter_stableSort {α : Type _} (le : α → α → Bool) (p : α → Bool)
    (hp : ∀ a b, p a = true → p b = true → le a b = true) (l : List α) :
    (stableSort le l).filter p = l.filter p := by
  induction l with
  | nil => rfl
  | cons a l ih =>
    simp only [stableSort]
    rw [filter_stableInsert le p hp, ih, List.filter_cons]

theorem updAssoc_forall {β : Type _} (P : β → Prop) (k : String) (f : β → β) (d : β)
    (hd : P (f d)) (hf : ∀ v, P v → P (f v)) :
    ∀ l : List (String × β), (∀ p ∈ l, P p.2) → ∀ p ∈ updAssoc k f d l, P p.2 := by
  intro l
  induction l with
  | nil =>
    intro _ p hp
    simp only [updAssoc, List.mem_singleton] at hp
    subst hp
    exact hd
  | cons kv rest ih =>
    intro hl p hp
    obtain ⟨k1, v⟩ := kv
    simp only [updAssoc] at hp
    split at hp
    · rcases List.mem_cons.1 hp with rfl | h2
      · exact hf v (hl (k1, v) (List.mem_cons_self _ _))
      · exact hl p (List.mem_cons_of_mem _ h2)
    · rcases List.mem_cons.1 hp with rfl | h2
      · exact hl (k1, v) (List.mem_cons_self _ _)
      · exact ih (fun q hq => hl q (List.mem_cons_of_mem _ hq)) p h2

theorem rhe_sub_abs_le (q : ℚ) : |(rhe q : ℚ) - q| ≤ 1 / 2 := by
  have h0 : (⌊q⌋ : ℚ) ≤ q := Int.floor_le q
  have h1 : q < ⌊q⌋ + 1 := Int.lt_floor_add_one q
  unfold rhe
  split
  next h => rw [abs_le]; constructor <;> linarith
  next h =>
    split
    next h2 => rw [abs_le]; push_cast; constructor <;> linarith
    next h2 =>
      have he : q - ⌊q⌋ = 1 / 2 := le_antisymm (not_lt.1 h2) (not_lt.1 h)
      split
      next => rw [abs_le]; constructor <;> linarith
      next => rw [abs_le]; push_cast; constructor <;> linarith

theorem pyRound2_sub_abs_le (q : ℚ) : |pyRound2 q - q| ≤ 1 / 200 := by
  have h := rhe_sub_abs_le (q * 100)
  have he : pyRound2 q - q = ((rhe (q * 100) : ℚ) - q * 100) / 100 := by
    unfold pyRound2; ring
  rw [he, abs_div, abs_of_pos (by norm_num : (0 : ℚ) < 100),
    div_le_iff₀ (by norm_num : (0 : ℚ) < 100)]
  linarith

theorem sum_pyRound2_bound (l : List ℚ) :
    |(l.map pyRound2).sum - l.sum| ≤ (l.length : ℚ) / 200 := by
  induction l with
  | nil => simp
  | cons a l ih =>
    simp only [List.map_cons, List.sum_cons, List.length_cons]
    have h1 := pyRound2_sub_abs_le a
    have he : pyRound2 a + (l.map pyRound2).sum - (a + l.sum)
        = (pyRound2 a - a) + ((l.map pyRound2).sum - l.sum) := by ring
    rw [he]
    calc |(pyRound2 a - a) + ((l.map pyRound2).sum - l.sum)|
        ≤ |pyRound2 a - a| + |(l.map pyRound2).sum - l.sum| := abs_add _ _
      _ ≤ 1 / 200 + (l.length : ℚ) / 200 := add_le_add h1 ih
      _ = ((l.length : ℚ) + 1) / 200 := by ring
      _ = (((l.length + 1 : ℕ)) : ℚ) / 200 := by push_cast; ring

theorem lexLeChars_total : ∀ as bs : List Char,
    lexLeChars as bs = true ∨ lexLeChars bs as = true := by
  intro as
  induction as with
  | nil => intro bs; left; rfl
  | cons a as ih =>
    intro bs
    cases bs with
    | nil => right; rfl
    | cons b bs =>
      by_cases hab : a = b
      · subst hab
        simpa only [lexLeChars, if_pos rfl] using ih bs
      · rcases lt_or_gt_of_ne hab with h | h
        · left; simp [lexLeChars, hab, h]
        · right; simp [lexLeChars, Ne.symm hab, h]

theorem lexLeChars_trans : ∀ as bs cs : List Char,
    lexLeChars as bs = true → lexLeChars bs cs = true → lexLeChars as cs = true := by
  intro as
  induction as with
  | nil => intro bs cs _ _; rfl
  | cons a as ih =>
    intro bs cs h1 h2
    cases bs with
    | nil => simp [lexLeChars] at h1
    | cons b bs =>
      cases cs with
      | nil => simp [lexLeChars] at h2
      | cons c cs =>
        by_cases hab : a = b <;> by_cases hbc : b = c
        · subst hab; subst hbc
          simp only [lexLeChars, if_pos rfl] at h1 h2 ⊢
          exact ih bs cs h1 h2
        · subst hab
          simp only [lexLeChars, if_pos rfl] at h1
          simp only [lexLeChars, if_neg hbc] at h2 ⊢
          exact h2
        · subst hbc
          simp only [lexLeChars, if_pos rfl] at h2
          simp only [lexLeChars, if_neg hab] at h1 ⊢
          exact h1
        · simp only [lexLeChars, if_neg hab] at h1
          simp only [lexLeChars, if_neg hbc] at h2
          have hac : a < c := lt_trans (of_decide_eq_true h1) (of_decide_eq_true h2)
          simp [lexLeChars, ne_of_lt hac, hac]

theorem strLe_total (a b : String) : strLe a b = true ∨ strLe b a = true :=
  lexLeChars_total a.data b.data

theorem strLe_trans (a b c : String) :
    strLe a b = true → strLe b c = true → strLe a c = true :=
  lexLeChars_trans a.data b.data c.data

theorem foldl_pickMax {α : Type _} (key : α → ℚ) :
    ∀ (l : List α) (b r : α),
      l.foldl (fun best x => if key best < key x then x else best) b = r →
      (r = b ∧ ∀ x ∈ l, key x ≤ key b) ∨
      (∃ l1 l2, l = l1 ++ r :: l2 ∧ key b < key r ∧
        (∀ x ∈ l1, key x < key r) ∧ (∀ x ∈ l2, key x ≤ key r)) := by
  intro l
  induction l with
  | nil =>
    intro b r hr
    left
    exact ⟨hr.symm, by simp⟩
  | cons x l ih =>
    intro b r hr
    simp only [List.foldl_cons] at hr
    by_cases hbx : key b < key x
    · rw [if_pos hbx] at hr
      rcases ih x r hr with ⟨rfl, hall⟩ | ⟨l1, l2, heq, hlt, h1, h2⟩
      · right
        exact ⟨[], l, rfl, hbx, by simp, hall⟩
      · right
        refine ⟨x :: l1, l2, by rw [heq]; rfl, lt_trans hbx hlt, ?_, h2⟩
        intro y hy
        rcases List.mem_cons.1 hy with rfl | hy2
        · exact hlt
        · exact h1 y hy2
    · rw [if_neg hbx] at hr
      have hxb : key x ≤ key b := not_lt.1 hbx
      rcases ih b r hr with ⟨rfl, hall⟩ | ⟨l1, l2, heq, hlt, h1, h2⟩
      · left
        refine ⟨rfl, ?_⟩
        intro y hy
        rcases List.mem_cons.1 hy with rfl | hy2
        · exact hxb
        · exact hall y hy2
      · right
        refine ⟨x :: l1, l2, by rw [heq]; rfl, hlt, ?_, h2⟩
        intro y hy
        rcases List.mem_cons.1 hy with rfl | hy2
        · exact lt_of_le_of_lt hxb hlt
        · exact h1 y hy2

theorem length_filter_split {α : Type _} (p : α → Bool) (l : List α) :
    (l.filter (fun x => !p x)).length + (l.filter p).length = l.length := by
  induction l with
  | nil => rfl
  | cons a l ih =>
    cases h : p a <;> simp [List.filter_cons, h] <;> omega

/-- Sanity check: the worked example line of the spec parses with the cleaned name. -/
theorem checkParseExample : (parseLine "T001|2024-12-01|P101|Mouse,Wireless|10|25.00|C001|North").map
    (fun t => (t.productName, t.quantity, t.unitPrice)) =
    some ("Mouse Wireless", 10, 25) := by decide

/-- Sanity check: a line with fewer than 8 fields is dropped. -/
theorem checkParseShortLine : parseLine "T001|2024-12-01|P101|Mouse" = none := by decide

/-- Sanity check: a line with a non-numeric quantity is dropped. -/
theorem checkParseBadQty : parseLine "T001|2024-12-01|P101|Mouse|x|25.00|C001|North" = none := by decide

/-- Sanity check: int() fails on an uncleaned thousands separator. -/
theorem checkIntCommaFails : pyInt? " 1,0" = none := by decide

/-- Sanity check: int() succeeds after comma removal. -/
theorem checkIntCommaRemoved : pyInt? (pyRemoveChar ',' " 1,000") = some 1000 := by decide

/-- Sanity check: float() accepts a decimal exponent. -/
theorem checkFloatExponent : pyFloat? "2.5e2" = some 250 := by decide

/-- Sanity check: round half to even rounds 4.135 up to 4.14. -/
theorem checkRoundHalfUpOdd : pyRound2 (827 / 200) = 414 / 100 := by decide

/-- Sanity check: round half to even rounds 4.125 down to 4.12. -/
theorem checkRoundHalfDownEven : pyRound2 (825 / 200) = 412 / 100 := by decide

/-- Sanity check: the region breakdown of the worked example of the spec. -/
theorem checkRegionExample :
    region_wise_sales (parse_transactions
      ["T001|2024-12-01|P101|Mouse,Wireless|10|25.00|C001|North",
       "T002|2024-12-01|P102|Keyboard|5|50.00|C002|North"]) =
    [("North", { total_sales := 500, transaction_count := 2, percentage := 100 })] := by
  decide

/-- Sanity check: the peak day of the worked example of the spec. -/
theorem checkPeakExample :
    find_peak_sales_day (parse_transactions
      ["T001|2024-12-01|P101|Mouse,Wireless|10|25.00|C001|North",
       "T002|2024-12-01|P102|Keyboard|5|50.00|C002|North"]) =
    some ("2024-12-01", 500, 2) := by decide

/-- Sanity check: the daily trend of the worked example of the spec. -/
theorem checkTrendExample :
    daily_sales_trend (parse_transactions
      ["T001|2024-12-01|P101|Mouse,Wireless|10|25.00|C001|North",
       "T002|2024-12-01|P102|Keyboard|5|50.00|C002|North"]) =
    [("2024-12-01", { revenue := 500, transaction_count := 2, unique_customers := 2 })] := by
  decide

/-- Sanity check: the code enriches product id P10P against integer key 10. -/
theorem checkEnrichCode :
    (enrichTransaction (fun k => if k = PKey.int 10 then
        some { title := "x", category := "y", brand := "z", rating := 4 } else none)
      { transactionID := "T1", date := "2024-12-01", productID := "P10P",
        productName := "A", quantity := 1, unitPrice := 1,
        customerID := "C1", region := "N" }).enriched = true := by decide

/-- Sanity check: the spec-side lookup does not enrich P10P against integer key 10. -/
theorem checkEnrichSpec :
    (specEnrichTransaction (fun k => if k = PKey.int 10 then
        some { title := "x", category := "y", brand := "z", rating := 4 } else none)
      { transactionID := "T1", date := "2024-12-01", productID := "P10P",
        productName := "A", quantity := 1, unitPrice := 1,
        customerID := "C1", region := "N" }).enriched = false := by decide

theorem regionStage_length_le (region : Option String) (ts : List Transaction) :
    (regionStage region ts).length ≤ ts.length := by
  cases region with
  | none => exact le_refl _
  | some r =>
    simp only [regionStage]
    split
    · exact List.length_filter_le _ _
    · exact le_refl _

theorem amountStage_length_le (minA maxA : Option ℚ) (ts : List Transaction) :
    (amountStage minA maxA ts).length ≤ ts.length := by
  unfold amountStage
  split
  · exact List.length_filter_le _ _
  · exact le_refl _

theorem regionStage_not_truthy (region : Option String) (ts : List Transaction)
    (h : optStrTruthy region = false) : regionStage region ts = ts := by
  cases region with
  | none => rfl
  | some r =>
    have hs : strTruthy r = false := h
    simp only [regionStage, hs]
    simp

theorem not_decide_lt (a m : ℚ) : (!decide (a < m)) = decide (m ≤ a) := by
  by_cases h : a < m
  · simp [h, not_le.2 h]
  · simp [h, not_lt.1 h]

theorem passesAmount_eq (minA maxA : Option ℚ) (t : Transaction) :
    passesAmount minA maxA t
      = ((minA.all fun m => decide (m ≤ amountOf t)) &&
         (maxA.all fun m => decide (amountOf t ≤ m))) := by
  unfold passesAmount
  cases minA <;> cases maxA <;> simp [Option.all, not_decide_lt]

theorem length_filterMap_eq_countP {α β : Type _} (f : α → Option β) (l : List α) :
    (l.filterMap f).length = l.countP (fun x => (f x).isSome) := by
  induction l with
  | nil => rfl
  | cons a l ih =>
    cases h : f a <;> simp [List.filterMap_cons, h, List.countP_cons, ih]

theorem parseLine_isSome (line : String) : (parseLine line).isSome = lineOK line := by
  unfold parseLine lineOK
  cases h : splitOnChar '|' line.data with
  | nil => rfl
  | cons f1 r1 =>
    cases r1 with
    | nil => rfl
    | cons f2 r2 =>
      cases r2 with
      | nil => rfl
      | cons f3 r3 =>
        cases r3 with
        | nil => rfl
        | cons f4 r4 =>
          cases r4 with
          | nil => rfl
          | cons f5 r5 =>
            cases r5 with
            | nil => rfl
            | cons f6 r6 =>
              cases r6 with
              | nil => rfl
              | cons f7 r7 =>
                cases r7 with
                | nil => rfl
                | cons f8 r8 =>
                  cases r8 with
                  | nil =>
                    change (mkParsed f1 f2 f3 f4 f5 f6 f7 f8).isSome
                        = ((pyInt? (pyRemoveChar ',' ⟨f5⟩)).isSome &&
                           (pyFloat? (pyRemoveChar ',' ⟨f6⟩)).isSome)
                    unfold mkParsed
                    cases pyInt? (pyRemoveChar ',' ⟨f5⟩) <;>
                      cases pyFloat? (pyRemoveChar ',' ⟨f6⟩) <;> rfl
                  | cons f9 r9 => rfl

theorem map_replace_id (cs : List Char) (hc : (',' : Char) ∉ cs) :
    cs.map (fun c => if c = ',' then ' ' else c) = cs := by
  induction cs with
  | nil => rfl
  | cons a l ih =>
    simp only [List.mem_cons, not_or] at hc
    rw [List.map_cons, if_neg (fun h => hc.1 h.symm), ih hc.2]

theorem stripWS_id (cs : List Char)
    (hhead : (cs.head?.all fun c => !pyIsSpace c) = true)
    (hlast : (cs.getLast?.all fun c => !pyIsSpace c) = true) :
    stripWS cs = cs := by
  unfold stripWS
  have h1 : cs.dropWhile pyIsSpace = cs := by
    cases cs with
    | nil => rfl
    | cons a l =>
      simp only [List.head?_cons, Option.all_some] at hhead
      have hs : pyIsSpace a = false := by simpa using hhead
      simp [List.dropWhile_cons, hs]
  rw [h1]
  have h2 : cs.reverse.dropWhile pyIsSpace = cs.reverse := by
    cases hr : cs.reverse with
    | nil => rfl
    | cons a l =>
      have hg : cs.getLast? = some a := by
        rw [← List.head?_reverse, hr, List.head?_cons]
      rw [hg, Option.all_some] at hlast
      have hs : pyIsSpace a = false := by simpa using hlast
      simp [List.dropWhile_cons, hs]
  rw [h2, List.reverse_reverse]

/-- C1: for every input list and any optional region and amount bounds, the
summary of validate_and_filter satisfies total_input = invalid + (count of records
passing validation); that count equals final_count + filtered_by_region +
filtered_by_amount; each filter count is the number of records removed from the
set entering that stage; and a filter that is not applied contributes 0. -/
theorem C1_count_conservation (ts : List Transaction) (region : Option String)
    (minA maxA : Option ℚ) :
    (validate_and_filter ts region minA maxA).2.2.total_input
        = (validate_and_filter ts region minA maxA).2.2.invalid
          + (ts.filter isValidT).length ∧
    (ts.filter isValidT).length
        = (validate_and_filter ts region minA maxA).2.2.final_count
          + (validate_and_filter ts region minA maxA).2.2.filtered_by_region
          + (validate_and_filter ts region minA maxA).2.2.filtered_by_amount ∧
    (validate_and_filter ts region minA maxA).2.2.filtered_by_region
        = (ts.filter isValidT).length - (regionStage region (ts.filter isValidT)).length ∧
    (validate_and_filter ts region minA maxA).2.2.filtered_by_amount
        = (regionStage region (ts.filter isValidT)).length
          - (amountStage minA maxA (regionStage region (ts.filter isValidT))).length ∧
    (optStrTruthy region = false →
      (validate_and_filter ts region minA maxA).2.2.filtered_by_region = 0) ∧
    (minA = none → maxA = none →
      (validate_and_filter ts region minA maxA).2.2.filtered_by_amount = 0) := by
  have h1 := regionStage_length_le region (ts.filter isValidT)
  have h2 := amountStage_length_le minA maxA (regionStage region (ts.filter isValidT))
  have hsplit := length_filter_split isValidT ts
  refine ⟨?_, ?_, rfl, rfl, ?_, ?_⟩
  · show ts.length
        = (ts.filter (fun t => !isValidT t)).length + (ts.filter isValidT).length
    omega
  · show (ts.filter isValidT).length
        = (amountStage minA maxA (regionStage region (ts.filter isValidT))).length
          + ((ts.filter isValidT).length
              - (regionStage region (ts.filter isValidT)).length)
          + ((regionStage region (ts.filter isValidT)).length
              - (amountStage minA maxA (regionStage region (ts.filter isValidT))).length)
    omega
  · intro h
    show (ts.filter isValidT).length - (regionStage region (ts.filter isValidT)).length = 0
    rw [regionStage_not_truthy region _ h]
    exact Nat.sub_self _
  · intro hmin hmax
    subst hmin; subst hmax
    show (regionStage region (ts.filter isValidT)).length
        - (amountStage none none (regionStage region (ts.filter isValidT))).length = 0
    exact Nat.sub_self _

/-- Witness for C1 at the concrete two-line input with no filters given. -/
theorem C1_count_conservation_witness :
    (validate_and_filter exTs none none none).2.2.filtered_by_region = 0 ∧
    (validate_and_filter exTs none none none).2.2.filtered_by_amount = 0 :=
  ⟨(C1_count_conservation exTs none none none).2.2.2.2.1 rfl,
   (C1_count_conservation exTs none none none).2.2.2.2.2 rfl rfl⟩

/-- C5: the surviving records of validate_and_filter are exactly the records of
the region stage's output whose amount lies in the inclusive range given by the
optional bounds (open-ended where a bound is omitted), the two bounds being
checked in one combined pass run after the region filter. -/
theorem C5_amount_filter (ts : List Transaction) (region : Option String)
    (minA maxA : Option ℚ) :
    (validate_and_filter ts region minA maxA).1
      = (regionStage region (ts.filter isValidT)).filter
          (fun t => (minA.all fun m => decide (m ≤ amountOf t)) &&
                    (maxA.all fun m => decide (amountOf t ≤ m))) := by
  show amountStage minA maxA (regionStage region (ts.filter isValidT)) = _
  unfold amountStage
  split
  next h =>
    exact List.filter_congr (fun t _ => passesAmount_eq minA maxA t)
  next h =>
    have hmin : minA = none := by cases minA <;> simp_all
    have hmax : maxA = none := by cases maxA <;> simp_all
    subst hmin; subst hmax
    simp [Option.all]

/-- C9: calling validate_and_filter with the empty string as the region argument
is identical to calling it with no region argument, and its filtered_by_region
count is 0. -/
theorem C9_empty_region (ts : List Transaction) (minA maxA : Option ℚ) :
    validate_and_filter ts (some "") minA maxA = validate_and_filter ts none minA maxA ∧
    (validate_and_filter ts (some "") minA maxA).2.2.filtered_by_region = 0 := by
  have hr : ∀ l : List Transaction, regionStage (some "") l = l := fun l =>
    regionStage_not_truthy (some "") l rfl
  have hn : ∀ l : List Transaction, regionStage none l = l := fun l => rfl
  constructor
  · unfold validate_and_filter
    rw [hr, hn]
  · show (ts.filter isValidT).length
        - (regionStage (some "") (ts.filter isValidT)).length = 0
    rw [hr]
    exact Nat.sub_self _

/-- C6: a raw line yields a record exactly when it splits into 8 pipe-separated
fields whose quantity and price fields convert after comma removal; a failing
line is silently omitted - parse_transactions is exactly the per-line parse of
the good lines, with no error record or count produced, and the validator's own
accounting (total_input) starts from the parsed records only. -/
theorem C6_silent_parse_rejection (lines : List String) (line : String) :
    (parseLine line).isSome = lineOK line ∧
    parse_transactions lines = lines.filterMap parseLine ∧
    (parse_transactions lines).length = lines.countP lineOK ∧
    (validate_and_filter (parse_transactions lines) none none none).2.2.total_input
      = (parse_transactions lines).length := by
  refine ⟨parseLine_isSome line, rfl, ?_, rfl⟩
  rw [show parse_transactions lines = lines.filterMap parseLine from rfl,
    length_filterMap_eq_countP]
  exact List.countP_congr (fun l _ => by rw [parseLine_isSome l])

/-- C8: parsing is deterministic, and on any string with no commas and no leading
or trailing whitespace the cleaning step (comma-to-space replacement followed by
trimming) is a no-op. -/
theorem C8_parse_idempotent (lines : List String) (s : String)
    (hc : (',' : Char) ∉ s.data)
    (hhead : (s.data.head?.all fun c => !pyIsSpace c) = true)
    (hlast : (s.data.getLast?.all fun c => !pyIsSpace c) = true) :
    parse_transactions lines = parse_transactions lines ∧
    pyStrip (pyReplaceChar ',' ' ' s) = s := by
  refine ⟨rfl, ?_⟩
  show (⟨stripWS (s.data.map fun c => if c = ',' then ' ' else c)⟩ : String) = s
  rw [map_replace_id s.data hc, stripWS_id s.data hhead hlast]

/-- Witness for C8 at the cleaned product name of the worked example. -/
theorem C8_parse_idempotent_witness :
    pyStrip (pyReplaceChar ',' ' ' "Mouse Wireless") = "Mouse Wireless" :=
  (C8_parse_idempotent [] "Mouse Wireless" (by decide) (by decide) (by decide)).2

theorem customerGroups_count_pos (ts : List Transaction) :
    ∀ p ∈ customerGroups ts, 1 ≤ p.2.purchase_count := by
  have main : ∀ (us : List Transaction) (acc : List (String × CustomerAcc)),
      (∀ p ∈ acc, 1 ≤ p.2.purchase_count) →
      ∀ p ∈ us.foldl customerStep acc, 1 ≤ p.2.purchase_count := by
    intro us
    induction us with
    | nil =>
      intro acc hacc
      simpa using hacc
    | cons t us ih =>
      intro acc hacc
      rw [List.foldl_cons]
      refine ih _ ?_
      exact updAssoc_forall (fun v => 1 ≤ v.purchase_count) t.customerID
        (fun s => { total_spent := s.total_spent + amountOf t
                    purchase_count := s.purchase_count + 1
                    products_set := addUnique t.productName s.products_set })
        { total_spent := 0, purchase_count := 0, products_set := [] }
        (Nat.le_refl 1) (fun v _ => Nat.succ_le_succ (Nat.zero_le _)) acc hacc
  exact main ts [] (by simp)

theorem regionStep_sum (acc : List (String × RegionAcc)) (t : Transaction) :
    ((regionStep acc t).map (fun p => p.2.total_sales)).sum
      = (acc.map (fun p => p.2.total_sales)).sum + amountOf t := by
  unfold regionStep
  induction acc with
  | nil => simp [updAssoc]
  | cons kv rest ih =>
    obtain ⟨k1, v⟩ := kv
    simp only [updAssoc]
    split
    · simp only [List.map_cons, List.sum_cons]
      ring
    · simp only [List.map_cons, List.sum_cons, ih]
      ring

theorem regionGroups_sum (ts : List Transaction) :
    ((regionGroups ts).map (fun p => p.2.total_sales)).sum
      = calculate_total_revenue ts := by
  have main : ∀ (us : List Transaction) (acc : List (String × RegionAcc)),
      ((us.foldl regionStep acc).map (fun p => p.2.total_sales)).sum
        = (acc.map (fun p => p.2.total_sales)).sum + (us.map amountOf).sum := by
    intro us
    induction us with
    | nil =>
      intro acc
      simp
    | cons t us ih =>
      intro acc
      rw [List.foldl_cons, ih, regionStep_sum]
      simp only [List.map_cons, List.sum_cons]
      ring
  have h := main ts []
  simpa [regionGroups, calculate_total_revenue] using h

theorem sum_map_div_mul (l : List (String × RegionAcc)) (T : ℚ) :
    (l.map (fun g => g.2.total_sales / T * 100)).sum
      = (l.map (fun g => g.2.total_sales)).sum / T * 100 := by
  induction l with
  | nil => simp
  | cons a l ih =>
    simp only [List.map_cons, List.sum_cons, ih]
    ring

theorem lexLeChars_refl (cs : List Char) : lexLeChars cs cs = true := by
  induction cs with
  | nil => rfl
  | cons a l ih => simpa [lexLeChars] using ih

theorem strLe_refl (s : String) : strLe s s = true := lexLeChars_refl s.data

/-- C10: every customer entry has purchase_count at least 1, so the divide-by-zero
guard branch is unreachable (customer_analysis equals the guard-free variant) and
every group's avg_order_value is the rounded quotient of its accumulated spend by
its purchase count. -/
theorem C10_customer_guard_unreachable (ts : List Transaction) :
    (∀ e ∈ customer_analysis ts, 1 ≤ e.2.purchase_count) ∧
    customer_analysis ts = customerAnalysisNoGuard ts ∧
    (∀ g ∈ customerGroups ts, 1 ≤ g.2.purchase_count ∧
      (finalizeCustomer g).2.avg_order_value
        = pyRound2 (g.2.total_spent / (g.2.purchase_count : ℚ))) := by
  have hpos := customerGroups_count_pos ts
  refine ⟨?_, ?_, ?_⟩
  · intro e he
    rw [show customer_analysis ts
        = stableSort (fun a b => decide (b.2.total_spent ≤ a.2.total_spent))
            ((customerGroups ts).map finalizeCustomer) from rfl, mem_stableSort] at he
    obtain ⟨g, hg, rfl⟩ := List.mem_map.1 he
    show 1 ≤ g.2.purchase_count
    exact hpos g hg
  · unfold customer_analysis customerAnalysisNoGuard
    congr 1
    refine List.map_congr_left ?_
    intro g hg
    have hlt : 0 < g.2.purchase_count := hpos g hg
    unfold finalizeCustomer finalizeCustomerNoGuard
    rw [if_pos hlt]
  · intro g hg
    refine ⟨hpos g hg, ?_⟩
    have hlt : 0 < g.2.purchase_count := hpos g hg
    show pyRound2 (if 0 < g.2.purchase_count then
        g.2.total_spent / (g.2.purchase_count : ℚ) else 0) = _
    rw [if_pos hlt]

/-- Witness for C10 at the concrete two-line input. -/
theorem C10_customer_guard_unreachable_witness :
    customer_analysis exTs = customerAnalysisNoGuard exTs ∧
    1 ≤ (("C001",
        ({ total_spent := 250, purchase_count := 1, avg_order_value := 250,
           products_bought := ["Mouse Wireless"] } : CustomerStats)) :
        String × CustomerStats).2.purchase_count :=
  ⟨(C10_customer_guard_unreachable exTs).2.1,
   (C10_customer_guard_unreachable exTs).1 _ (by decide)⟩

/-- Counterexample to C3 as stated: for product id "P10P" and a mapping that
knows integer key 10 only, the code (which removes every P before the integer
conversion) enriches the transaction, while the single-leading-P lookup the
claim describes does not, so the two disagree. -/
theorem C3_counterexample :
    (enrichTransaction exPmap exTP).enriched = true ∧
    (specEnrichTransaction exPmap exTP).enriched = false ∧
    enrichTransaction exPmap exTP ≠ specEnrichTransaction exPmap exTP := by
  refine ⟨by decide, by decide, by decide⟩

/-- C3 (amended): the enrichment step removes every occurrence of P from the
product id (not only a single leading one), attempts integer conversion to look
up by integer key, falls back on conversion failure to a lookup by the original
product id string, and flags a transaction with no match enriched=false. -/
theorem C3_enrichment_lookup (pmap : PKey → Option ProductInfo) (t : Transaction) :
    (∀ n, pyInt? (pyRemoveChar 'P' t.productID) = some n →
      enrichLookup pmap t = pmap (PKey.int n)) ∧
    (pyInt? (pyRemoveChar 'P' t.productID) = none →
      enrichLookup pmap t = pmap (PKey.str t.productID)) ∧
    ((enrichTransaction pmap t).enriched = false ↔ enrichLookup pmap t = none) ∧
    (enrichTransaction pmap t).base = t := by
  refine ⟨?_, ?_, ?_, ?_⟩
  · intro n hn
    unfold enrichLookup
    rw [hn]
  · intro hn
    unfold enrichLookup
    rw [hn]
  · unfold enrichTransaction
    cases h : enrichLookup pmap t <;> simp
  · unfold enrichTransaction
    cases h : enrichLookup pmap t <;> rfl

/-- Witness for the amended C3 at the concrete transaction and mapping. -/
theorem C3_enrichment_lookup_witness :
    enrichLookup exPmap exTP = exPmap (PKey.int 10) ∧
    ((enrichTransaction exPmap exTP).enriched = false ↔
      enrichLookup exPmap exTP = none) :=
  ⟨(C3_enrichment_lookup exPmap exTP).1 10 (by decide),
   (C3_enrichment_lookup exPmap exTP).2.2.1⟩

/-- C2: region_wise_sales returns the empty mapping when total revenue is zero;
otherwise every returned entry comes from the region grouping, its percentage
being round2(group total / unrounded total revenue * 100) and its sales the
group total rounded afterwards; the output is ordered descending by rounded
total sales; and entries with equal rounded total sales keep their
first-encountered (grouping) order. -/
theorem C2_region_breakdown (ts : List Transaction) :
    (calculate_total_revenue ts = 0 → region_wise_sales ts = []) ∧
    (calculate_total_revenue ts ≠ 0 →
      (∀ p ∈ region_wise_sales ts, ∃ g ∈ regionGroups ts,
        p = (g.1,
          { total_sales := pyRound2 g.2.total_sales
            transaction_count := g.2.transaction_count
            percentage :=
              pyRound2 (g.2.total_sales / calculate_total_revenue ts * 100) })) ∧
      (region_wise_sales ts).Pairwise
        (fun a b => b.2.total_sales ≤ a.2.total_sales) ∧
      (∀ q : ℚ, (region_wise_sales ts).filter (fun p => p.2.total_sales == q)
          = ((regionGroups ts).map
              (finalizeRegion (calculate_total_revenue ts))).filter
              (fun p => p.2.total_sales == q))) := by
  constructor
  · intro h
    unfold region_wise_sales
    rw [if_pos h]
  · intro h
    have hunfold : region_wise_sales ts
        = stableSort (fun a b => decide (b.2.total_sales ≤ a.2.total_sales))
            ((regionGroups ts).map (finalizeRegion (calculate_total_revenue ts))) := by
      unfold region_wise_sales
      rw [if_neg h]
    refine ⟨?_, ?_, ?_⟩
    · intro p hp
      rw [hunfold, mem_stableSort] at hp
      obtain ⟨g, hg, rfl⟩ := List.mem_map.1 hp
      exact ⟨g, hg, rfl⟩
    · rw [hunfold]
      have hpw := pairwise_stableSort
        (fun a b : String × RegionStats => decide (b.2.total_sales ≤ a.2.total_sales))
        (fun a b => by
          rcases le_total b.2.total_sales a.2.total_sales with h1 | h1
          · exact Or.inl (decide_eq_true h1)
          · exact Or.inr (decide_eq_true h1))
        (fun a b c h1 h2 =>
          decide_eq_true (le_trans (of_decide_eq_true h2) (of_decide_eq_true h1)))
        ((regionGroups ts).map (finalizeRegion (calculate_total_revenue ts)))
      exact hpw.imp (fun h12 => of_decide_eq_true h12)
    · intro q
      rw [hunfold]
      refine filter_stableSort
        (fun a b : String × RegionStats => decide (b.2.total_sales ≤ a.2.total_sales))
        (fun p => p.2.total_sales == q) ?_ _
      intro a b ha hb
      have h1 : a.2.total_sales = q := by simpa using ha
      have h2 : b.2.total_sales = q := by simpa using hb
      exact decide_eq_true (le_of_eq (h2.trans h1.symm))

/-- Witness for C2 at the empty input (zero revenue) and the concrete two-line
input (nonzero revenue). -/
theorem C2_region_breakdown_witness :
    region_wise_sales ([] : List Transaction) = [] ∧
    (region_wise_sales exTs).Pairwise
      (fun a b => b.2.total_sales ≤ a.2.total_sales) :=
  ⟨(C2_region_breakdown []).1 rfl,
   ((C2_region_breakdown exTs).2 (by decide)).2.1⟩

theorem pyMaxByRevenue_spec (l : List (String × DayStats)) (p : String × DayStats)
    (h : pyMaxByRevenue l = some p) :
    p ∈ l ∧ (∀ e ∈ l, e.2.revenue ≤ p.2.revenue) ∧
    ∃ l1 l2, l = l1 ++ p :: l2 ∧ ∀ e ∈ l1, e.2.revenue < p.2.revenue := by
  cases l with
  | nil => exact absurd h (by simp [pyMaxByRevenue])
  | cons e rest =>
    simp only [pyMaxByRevenue, Option.some_inj] at h
    rcases foldl_pickMax (fun x => x.2.revenue) rest e p h with
      ⟨rfl, hall⟩ | ⟨l1, l2, heq, hlt, h1, h2⟩
    · refine ⟨List.mem_cons_self _ _, ?_, [], rest, rfl, by simp⟩
      intro x hx
      rcases List.mem_cons.1 hx with rfl | hx2
      · exact le_refl _
      · exact hall x hx2
    · refine ⟨?_, ?_, e :: l1, l2, by rw [heq, List.cons_append], ?_⟩
      · rw [heq]
        exact List.mem_cons_of_mem _ (List.mem_append_right _ (List.mem_cons_self _ _))
      · intro x hx
        rcases List.mem_cons.1 hx with rfl | hx2
        · exact le_of_lt hlt
        · rw [heq] at hx2
          rcases List.mem_append.1 hx2 with hx3 | hx3
          · exact le_of_lt (h1 x hx3)
          · rcases List.mem_cons.1 hx3 with rfl | hx4
            · exact le_refl _
            · exact h2 x hx4
      · intro x hx
        rcases List.mem_cons.1 hx with rfl | hx2
        · exact hlt
        · exact h1 x hx2

theorem daily_sales_trend_sorted (ts : List Transaction) :
    (daily_sales_trend ts).Pairwise (fun a b => strLe a.1 b.1 = true) :=
  pairwise_stableSort (fun a b => strLe a.1 b.1)
    (fun a b => strLe_total a.1 b.1)
    (fun a b c h1 h2 => strLe_trans a.1 b.1 c.1 h1 h2)
    ((dayGroups ts).map finalizeDay)

/-- C4: find_peak_sales_day returns None on an empty transaction set rather than
raising; otherwise it returns (date, revenue, transaction count) of a
daily-trend entry whose (already rounded) revenue is the maximum of the trend,
and among ties it is the first such entry of the ascending-date-ordered trend,
hence of the earliest date. -/
theorem C4_peak_day (ts : List Transaction) :
    (ts = [] → find_peak_sales_day ts = none) ∧
    (∀ d rev c, find_peak_sales_day ts = some (d, rev, c) →
      (∃ st : DayStats, (d, st) ∈ daily_sales_trend ts ∧
        st.revenue = rev ∧ st.transaction_count = c) ∧
      (∀ e ∈ daily_sales_trend ts, e.2.revenue ≤ rev) ∧
      (∀ e ∈ daily_sales_trend ts, e.2.revenue = rev → strLe d e.1 = true)) := by
  constructor
  · intro h
    subst h
    rfl
  · intro d rev c hpeak
    unfold find_peak_sales_day at hpeak
    rw [Option.map_eq_some'] at hpeak
    obtain ⟨p, hp, hproj⟩ := hpeak
    have hd : p.1 = d := congrArg Prod.fst hproj
    have hrev : p.2.revenue = rev := congrArg (fun x => x.2.1) hproj
    have hc : p.2.transaction_count = c := congrArg (fun x => x.2.2) hproj
    obtain ⟨hmem, hmax, l1, l2, heq, hstrict⟩ := pyMaxByRevenue_spec _ p hp
    refine ⟨⟨p.2, ?_, hrev, hc⟩, ?_, ?_⟩
    · rw [← hd]
      exact hmem
    · intro e he
      rw [← hrev]
      exact hmax e he
    · intro e he hrev2
      have hsorted := daily_sales_trend_sorted ts
      rw [heq] at hsorted he
      rcases List.mem_append.1 he with h1 | h1
      · exact absurd (hrev2.symm.trans_lt (hrev ▸ hstrict e h1)) (lt_irrefl _)
      · rcases List.mem_cons.1 h1 with rfl | h2
        · rw [← hd]
          exact strLe_refl _
        · rw [← hd]
          have hpl2 := (List.pairwise_append.1 hsorted).2.1
          exact (List.pairwise_cons.1 hpl2).1 e h2

/-- Witness for C4: the empty input gives the sentinel, and at the concrete
two-line input every trend revenue is bounded by the returned maximum. -/
theorem C4_peak_day_witness :
    find_peak_sales_day ([] : List Transaction) = none ∧
    (∀ e ∈ daily_sales_trend exTs, e.2.revenue ≤ 250) :=
  ⟨(C4_peak_day []).1 rfl,
   ((C4_peak_day exTs).2 "2024-12-01" 250 1 (by decide)).2.1⟩

set_option maxRecDepth 100000 in
/-- Counterexample to C7 as stated: with 25 regions the rounded percentages of
region_wise_sales add to 100.12, outside the claimed fixed tolerance of 0.1. -/
theorem C7_counterexample :
    calculate_total_revenue exC7 ≠ 0 ∧
    sumPct (region_wise_sales exC7) = 2503 / 25 ∧
    ¬ |sumPct (region_wise_sales exC7) - 100| ≤ 1 / 10 := by
  refine ⟨by decide, by decide, by decide⟩

/-- C7 (amended): for nonzero total revenue the rounded region percentages of
region_wise_sales add to 100 within N times 0.005 (that is N/200), N the number
of regions returned, each region contributing at most half a unit in the last
rounded decimal place; the fixed tolerance 0.1 claimed for every N holds only
for N at most 20. -/
theorem C7_percentage_normalization (ts : List Transaction)
    (h : calculate_total_revenue ts ≠ 0) :
    |sumPct (region_wise_sales ts) - 100|
      ≤ ((region_wise_sales ts).length : ℚ) / 200 := by
  have hunfold : region_wise_sales ts
      = stableSort (fun a b => decide (b.2.total_sales ≤ a.2.total_sales))
          ((regionGroups ts).map (finalizeRegion (calculate_total_revenue ts))) := by
    unfold region_wise_sales
    rw [if_neg h]
  have hsum1 : sumPct (region_wise_sales ts)
      = sumPct ((regionGroups ts).map (finalizeRegion (calculate_total_revenue ts))) := by
    rw [hunfold]
    unfold sumPct
    exact ((stableSort_perm _ _).map _).sum_eq
  have hsum2 : sumPct ((regionGroups ts).map (finalizeRegion (calculate_total_revenue ts)))
      = (((regionGroups ts).map
          (fun g => g.2.total_sales / calculate_total_revenue ts * 100)).map pyRound2).sum := by
    unfold sumPct
    rw [List.map_map, List.map_map]
    rfl
  have hx : ((regionGroups ts).map
      (fun g => g.2.total_sales / calculate_total_revenue ts * 100)).sum = 100 := by
    rw [sum_map_div_mul, regionGroups_sum, div_self h]
    norm_num
  have hlen : (region_wise_sales ts).length = (regionGroups ts).length := by
    rw [hunfold, length_stableSort, List.length_map]
  have hbound := sum_pyRound2_bound
    ((regionGroups ts).map (fun g => g.2.total_sales / calculate_total_revenue ts * 100))
  rw [hx, List.length_map] at hbound
  rw [hsum1, hsum2, hlen]
  exact hbound

/-- Witness for the amended C7 at the concrete two-line input. -/
theorem C7_percentage_normalization_witness :
    |sumPct (region_wise_sales exTs) - 100|
      ≤ ((region_wise_sales exTs).length : ℚ) / 200 :=
  C7_percentage_normalization exTs (by decide)

end Sales
